import Mathlib

/-!
Verification of `src/tools/refresh_titan_index.py` (titan-index dashboard refresher).

This file gives a shallow embedding, in Lean 4, of the pure core of the script:
the label normalizer `norm`, the decorated-number codec `parse_num` / `fmt`, the
polarity classifier `good_when_down`, the indicator resolver `map_key`, the
trend annotator (the inline emoji/value and Overall-delta computations of
`main`), the table-patch pass of `main` (lines 136-189), the chart-series
helpers `parse_js_array` and the inline list-patch logic of `patch_chart`
(lines 213-262), and the two copies of the filename-to-indicator resolution
rules (module-level `indicator_from_filename`, lines 99-113, and the inline
copy inside `patch_chart`, lines 242-255).

Modeling conventions:

* Python floats are modeled as exact rationals (`ℚ`).  All decimal literals of
  the source are represented by the exact decimal value (`mkRat`).  Because the
  kernel cannot reduce `Rat.add`/`Rat.sub`/`Rat.mul`/`Rat.div`, the embedding
  computes with the equivalent kernel-reducible wrappers `qadd`, `qsub`,
  `qmul` (built from `mkRat`); the bridge lemmas `qadd_eq`, `qsub_eq`,
  `qmul_eq` identify them with `+`, `-`, `*` for the symbolic proofs.
* Python strings are modeled as `String` / `List Char`; `str.replace` of a
  single-character pattern is a filter, `str.strip` strips ASCII whitespace,
  `str.lower` lowers ASCII letters (all inputs relevant here are ASCII apart
  from the fixed marker glyphs, which are unaffected by `lower`).
* `re.sub(r"\s+", " ", s)` is `collapse`: every maximal whitespace run becomes
  one space.
* The regex search `[-+]?\d*\.?\d+` of `parse_num` is modeled by the scanner
  `findNum`: leftmost match, with the backtracking behavior of the pattern
  (an integer part, optionally followed by a dot and a nonempty digit run;
  a bare trailing dot is not consumed).
* The split pattern of `parse_js_array` is the pattern that the source
  actually contains.  The source spells it inside a *raw* string, so the
  doubled backslashes are literal: the lookahead is `[^\x5c[]*\x5c]`, i.e.
  "a run of characters other than backslash and opening bracket followed by a
  literal backslash and a closing bracket" (`laEsc` below), not the
  bracket-protection `[^\[\]]*\]`.
* An HTML table is modeled as its header-cell texts plus the list of data
  rows, each row the list of its `td` texts (the document shape the script
  assumes: one header row, data rows whose first `td` is the indicator label).
  A BeautifulSoup `IndexError` (the `tds[overall_idx-1]` access in the
  column-insertion loop) is modeled by `Option`.
* `float(...)` applied to the literal text of a chart fragment is modeled by
  `pyFloat` on plain decimal/exponent literals (the only forms that occur);
  `inf`/`nan`/underscore forms are not modeled.
-/

/-! ## Character and list utilities -/

/-- ASCII whitespace recognizer; the character set matched by Python `\s` and
`str.strip` on the ASCII inputs this program handles. -/
def isWsC (c : Char) : Bool :=
  c == ' ' || c == '\t' || c == '\n' || c == '\r' || c == Char.ofNat 11 || c == Char.ofNat 12

/-- ASCII lowercasing of one character (Python `str.lower` on ASCII data). -/
def asciiLower (c : Char) : Char :=
  if 65 ≤ c.toNat ∧ c.toNat ≤ 90 then Char.ofNat (c.toNat + 32) else c

/-- Helper of `collapse`: the flag records whether the previous character was
whitespace (so a whitespace run contributes a single space). -/
def collapseAux : Bool → List Char → List Char
  | _, [] => []
  | prev, c :: rest =>
    if isWsC c then
      if prev then collapseAux true rest else ' ' :: collapseAux true rest
    else c :: collapseAux false rest

/-- Model of `re.sub(r"\s+", " ", s)`: every maximal whitespace run becomes a
single space. -/
def collapse (l : List Char) : List Char := collapseAux false l

/-- Model of Python `str.strip()`: drop whitespace from both ends. -/
def stripWs (l : List Char) : List Char :=
  ((l.dropWhile isWsC).reverse.dropWhile isWsC).reverse

/-- List-of-characters prefix test (Python `str.startswith`). -/
def isPrefixL : List Char → List Char → Bool
  | [], _ => true
  | _ :: _, [] => false
  | a :: as, b :: bs => a == b && isPrefixL as bs

/-- Substring test, needle first (Python `needle in hay`). -/
def containsL (needle : List Char) : List Char → Bool
  | [] => isPrefixL needle []
  | c :: rest => isPrefixL needle (c :: rest) || containsL needle rest

/-- Fuel-driven worker for `replAll`; the fuel is the length of the subject,
which suffices for a nonempty pattern. -/
def replAllF (pat : List Char) : Nat → List Char → List Char
  | _, [] => []
  | 0, cs => cs
  | f + 1, c :: rest =>
    if isPrefixL pat (c :: rest) then replAllF pat f (List.drop pat.length (c :: rest))
    else c :: replAllF pat f rest

/-- Model of Python `str.replace(pat, "")` for a nonempty pattern: remove all
(leftmost, non-overlapping) occurrences. -/
def replAll (pat cs : List Char) : List Char := replAllF pat cs.length cs

/-- Model of Python `str.rstrip(c)` for a single character: drop every trailing
occurrence of `c`. -/
def rstripCh (c : Char) (l : List Char) : List Char :=
  (l.reverse.dropWhile (fun x => x == c)).reverse

/-- Model of Python `s[1:-1]` on a string of characters. -/
def dropFirstLast (l : List Char) : List Char := (l.drop 1).dropLast

/-! ## Decimal digit strings -/

/-- The decimal digit character for `k < 10` (and `'9'` above, never used). -/
def digitChar : Nat → Char
  | 0 => '0'
  | 1 => '1'
  | 2 => '2'
  | 3 => '3'
  | 4 => '4'
  | 5 => '5'
  | 6 => '6'
  | 7 => '7'
  | 8 => '8'
  | _ => '9'

/-- Numeric value of a decimal digit character. -/
def digitVal (c : Char) : Nat := c.toNat - 48

/-- Value of a most-significant-first decimal digit string. -/
def digitsToNat (l : List Char) : Nat := l.foldl (fun a c => 10 * a + digitVal c) 0

/-- Fuel-driven decimal rendering of a natural number (most significant digit
first, no leading zeros, `"0"` for zero). -/
def natDigitsF : Nat → Nat → List Char
  | 0, _ => []
  | f + 1, n =>
    if n < 10 then [digitChar n] else natDigitsF f (n / 10) ++ [digitChar (n % 10)]

/-- Decimal rendering of a natural number. -/
def natDigits (n : Nat) : List Char := natDigitsF (n + 1) n

/-! ## Kernel-computable rational arithmetic

`Rat.add`, `Rat.sub`, `Rat.mul` do not reduce inside the kernel, so the
embedding computes with the following `mkRat`-based equivalents. -/

/-- Kernel-computable addition on `ℚ` (equal to `+` by `qadd_eq`). -/
def qadd (a b : ℚ) : ℚ := mkRat (a.num * b.den + b.num * a.den) (a.den * b.den)

/-- Kernel-computable subtraction on `ℚ` (equal to `-` by `qsub_eq`). -/
def qsub (a b : ℚ) : ℚ := qadd a (-b)

/-- Kernel-computable multiplication on `ℚ` (equal to `*` by `qmul_eq`). -/
def qmul (a b : ℚ) : ℚ := mkRat (a.num * b.num) (a.den * b.den)

/-- Python `abs` on our rational model of floats. -/
def pyAbs (q : ℚ) : ℚ := if q < 0 then -q else q

theorem qadd_eq (a b : ℚ) : qadd a b = a + b := by
  have h := Rat.mkRat_add_mkRat a.num b.num a.den_nz b.den_nz
  rw [Rat.mkRat_self, Rat.mkRat_self] at h
  rw [qadd, ← h]

theorem qsub_eq (a b : ℚ) : qsub a b = a - b := by
  rw [qsub, qadd_eq, ← sub_eq_add_neg]

theorem qmul_eq (a b : ℚ) : qmul a b = a * b := by
  have h := Rat.mkRat_mul_mkRat a.num b.num a.den b.den
  rw [Rat.mkRat_self, Rat.mkRat_self] at h
  rw [qmul, ← h]

theorem pyAbs_eq (q : ℚ) : pyAbs q = |q| := by
  rw [pyAbs]
  rcases lt_or_le q 0 with h | h
  · rw [if_pos h, abs_of_neg h]
  · rw [if_neg (not_lt.mpr h), abs_of_nonneg h]

/-- Rounding of 2-decimal scaled values as Python's float formatting performs
it: round half to even.  `Rat.floor` is the Batteries floor on `ℚ`. -/
def rhe (q : ℚ) : ℤ :=
  let f := q.floor
  let r := qsub q (f : ℚ)
  if r < mkRat 1 2 then f
  else if mkRat 1 2 < r then f + 1
  else if f % 2 = 0 then f else f + 1

theorem ratFloor_intCast (n : ℤ) : Rat.floor ((n : ℚ)) = n := by
  rw [Rat.floor]
  simp

theorem mkRat_half : (mkRat 1 2 : ℚ) = 1 / 2 := by
  rw [Rat.mkRat_eq_divInt, Rat.divInt_eq_div]
  norm_num

theorem rhe_intCast (n : ℤ) : rhe ((n : ℚ)) = n := by
  rw [rhe]
  simp only [ratFloor_intCast, qsub_eq, sub_self, mkRat_half]
  norm_num

/-! ## Fixed tables of the script (lines 15-45) -/

/-- The `SEPT` value table: canonical indicator name to the Sep 5, 2025 value
(source floats as exact decimals). -/
def SEPT : List (String × ℚ) :=
  [("30-Year Mortgage Rate (%)", mkRat 650 100),
   ("Avg Home Price ($)", 422400),
   ("DJIA", mkRat 4562129 100),
   ("S&P 500", mkRat 650208 100),
   ("NASDAQ", mkRat 2170769 100),
   ("Unemployment Rate (%)", mkRat 43 10),
   ("Consumer Confidence", mkRat 974 10),
   ("Presidential Approval (%)", mkRat 441 10),
   ("Avg Gas Price ($/gal)", mkRat 3204 1000),
   ("Big Mac ($)", mkRat 579 100),
   ("Milk ($/gal)", mkRat 4162 1000),
   ("Eggs ($/dozen)", mkRat 328 100)]

/-- The `GOOD_WHEN_DOWN` set (a Python set of normalized names; membership is
what the program uses, so a duplicate-free list models it faithfully). -/
def GOOD_WHEN_DOWN : List String :=
  ["30-year mortgage rate (%)", "avg home price ($)", "home price-to-income ratio",
   "big mac ($)", "avg gas price ($/gal)", "milk ($/gal)", "eggs ($/dozen)",
   "unemployment rate (%)"]

/-- The `ALIASES` mapping, insertion order preserved (keys are unique, so
association-list lookup models `dict.get`). -/
def ALIASES : List (String × String) :=
  [("average home price ($)", "Avg Home Price ($)"),
   ("avg gas price ($/gal)", "Avg Gas Price ($/gal)"),
   ("gas price (avg, $/gal)", "Avg Gas Price ($/gal)"),
   ("big mac price ($)", "Big Mac ($)"),
   ("milk (avg, $/gal)", "Milk ($/gal)"),
   ("eggs (avg, $/dozen)", "Eggs ($/dozen)"),
   ("presidential approval (%)", "Presidential Approval (%)"),
   ("consumer confidence index", "Consumer Confidence"),
   ("30-year fixed mortgage rate (%)", "30-Year Mortgage Rate (%)")]

/-! ## `norm` (line 47) -/

/-- Character-list form of `norm`: collapse whitespace, strip, lowercase. -/
def normL (s : String) : List Char := (stripWs (collapse s.data)).map asciiLower

/-- The source's `norm` (named `normStr` here because Mathlib exports a root
`norm`): `re.sub(r"\s+"," ", s).strip().lower()`. -/
def normStr (s : String) : String := String.mk (normL s)

/-! ## `parse_num` (lines 49-56) -/

/-- Characters removed by the `replace` chain of `parse_num` (the two trend
markers, the neutral marker, `$`, `%`, and the thousands comma; each pattern is
a single character, so the chain is a filter). -/
def bannedCh (c : Char) : Bool :=
  c == '🟥' || c == '🟢' || c == '➖' || c == '$' || c == '%' || c == ','

/-- Optional sign of the regex `[-+]?`: whether the match is negated, and the
rest of the input. -/
def signSplit : List Char → Bool × List Char
  | [] => (false, [])
  | c :: rest =>
    if c == '-' then (true, rest)
    else if c == '+' then (false, rest)
    else (false, c :: rest)

/-- Value of a match of `\d*\.?\d+` at the start of `r2`, given the integer
digits `ds` already consumed: either a fractional part follows (dot plus a
nonempty digit run), or the match is just `ds` (the regex backtracks off a
bare trailing dot), or there is no match. -/
def matchTail (ds r2 : List Char) : Option ℚ :=
  match r2 with
  | [] => if ds.isEmpty then none else some ((digitsToNat ds : ℚ))
  | c :: r3 =>
    if c == '.' then
      let fs := r3.takeWhile (fun x => x.isDigit)
      if fs.isEmpty then
        if ds.isEmpty then none else some ((digitsToNat ds : ℚ))
      else some (qadd (digitsToNat ds : ℚ) (mkRat (digitsToNat fs : ℤ) (10 ^ fs.length)))
    else if ds.isEmpty then none else some ((digitsToNat ds : ℚ))

/-- Unsigned part of a match of `[-+]?\d*\.?\d+` at the start of `r`. -/
def matchCore (r : List Char) : Option ℚ :=
  matchTail (r.takeWhile (fun c => c.isDigit)) (r.dropWhile (fun c => c.isDigit))

/-- Value of a match of `[-+]?\d*\.?\d+` anchored at the start of `cs`. -/
def matchAt (cs : List Char) : Option ℚ :=
  let p := signSplit cs
  (matchCore p.2).map (fun v => if p.1 then -v else v)

/-- Leftmost match of `[-+]?\d*\.?\d+` (the `re.search` of `parse_num`). -/
def findNum : List Char → Option ℚ
  | [] => none
  | c :: rest =>
    match matchAt (c :: rest) with
    | some v => some v
    | none => findNum rest

/-- The source's `parse_num`: `None` on the em-dash missing marker, otherwise
strip the marker glyphs, `$`, `%` and commas, strip whitespace, and take the
first decimal substring.  (The `txt is None` guard of the source is not
reachable from the call sites modeled here, which always pass cell text.) -/
def parse_num (txt : String) : Option ℚ :=
  if txt.data.any (fun c => c == '—') then none
  else findNum (stripWs (txt.data.filter (fun c => !bannedCh c)))

/-! ## `fmt` (line 58) -/

/-- The two fractional digits of `f"{x:.2f}"`. -/
def twoFrac (b : Nat) : List Char := [digitChar (b / 10), digitChar (b % 10)]

/-- Character list of `f"{x:.2f}"`: sign, integer digits, dot, two fractional
digits, with the correctly-rounded (half-even) 2-decimal value. -/
def render2f (x : ℚ) : List Char :=
  let c := rhe (qmul 100 x)
  let m := c.natAbs
  (if x < 0 then ['-'] else []) ++ natDigits (m / 100) ++ '.' :: twoFrac (m % 100)

/-- The source's `fmt`: `f"{x:.2f}".rstrip("0").rstrip(".")`. -/
def fmt (x : ℚ) : String := String.mk (rstripCh '.' (rstripCh '0' (render2f x)))

/-! ## `good_when_down` (lines 60-65) -/

/-- The source's `good_when_down`: membership in the fixed set, else the
market/sentiment substrings force `false`, else the cost/rate substrings force
`true`, else `false`. -/
def good_when_down (ind_name : String) : Bool :=
  let n := normL ind_name
  if GOOD_WHEN_DOWN.contains (String.mk n) then true
  else if ["djia", "nasdaq", "s&p", "confidence", "approval", "income"].any
      (fun k => containsL k.data n) then false
  else if ["price", "rate", "mortgage", "ratio"].any (fun k => containsL k.data n) then true
  else false

/-! ## `map_key` (lines 67-70) -/

/-- The source's `map_key`: first canonical `SEPT` key whose normalized form
equals the (already normalized) input, else the alias table. -/
def map_key (nname : String) : Option String :=
  match (SEPT.map Prod.fst).find? (fun k => normStr k == nname) with
  | some k => some k
  | none => List.lookup nname ALIASES

/-- Label resolution as the table pass performs it (`map_key(norm(raw))`). -/
def resolve (raw : String) : Option String := map_key (normStr raw)

/-! ## The trend annotator (inline in `main`, lines 171-176 and 179-187) -/

/-- The emoji expression shared by the new-period cell (line 175) and the
Overall cell (line 185): good when the delta moves in the favorable direction,
otherwise neutral when `abs(delta) < 1e-9`, otherwise bad. -/
def trendEmoji (delta : ℚ) (gwd : Bool) : String :=
  if (if gwd then decide (delta < 0) else decide (0 < delta)) then "🟢"
  else if pyAbs delta < mkRat 1 1000000000 then "➖" else "🟥"

/-- The new-period cell text (lines 171-176): neutral marker when the prior
(`Aug 1`) value is unavailable, else the trend emoji of `val - aug`, followed
by the formatted new value. -/
def annotateValue (val : ℚ) (aug : Option ℚ) (gwd : Bool) : String :=
  (match aug with
   | none => "➖"
   | some a => trendEmoji (qsub val a) gwd) ++ " " ++ fmt val

/-- The Overall cell text (lines 179-187): the missing marker when either side
is unparseable, else the trend emoji of the difference, a `+` sign for a
positive difference, and the formatted difference. -/
def annotateDelta (latest feb : Option ℚ) (gwd : Bool) : String :=
  match latest, feb with
  | some l, some f =>
    let diff := qsub l f
    trendEmoji diff gwd ++ " " ++ (if 0 < diff then "+" else "") ++ fmt diff
  | _, _ => "—"

/-! ## The table-patch pass (lines 136-189) -/

/-- One indicator table: the header-cell texts of its single header row, and
the data rows as lists of `td` texts (first `td` = indicator label). -/
structure Table where
  headers : List String
  rows : List (List String)
deriving DecidableEq, Repr

/-- Index of the first header whose normalized text starts with `"overall"`
(line 143 / line 160). -/
def overallIdx (headers : List String) : Option Nat :=
  headers.findIdx? (fun h => isPrefixL "overall".data (normL h))

/-- The column-insertion state transition (lines 142-154).  When `"Sep 1"` is
absent it is inserted immediately before the Overall header when one exists
(and a placeholder `"—"` cell after `td` index `overall_idx - 1`, hence at
index `overall_idx`, in every row), else appended.  A row shorter than the
`tds[overall_idx-1]` access needs raises `IndexError` in the source, modeled
as `none`. -/
def insertStep (t : Table) : Option Table :=
  if t.headers.contains "Sep 1" then some t
  else
    match overallIdx t.headers with
    | some oi =>
      if t.rows.all (fun r => decide (oi - 1 < r.length)) then
        some ⟨t.headers.take oi ++ "Sep 1" :: t.headers.drop oi,
              t.rows.map (fun r => r.take oi ++ "—" :: r.drop oi)⟩
      else none
    | none => some ⟨t.headers ++ ["Sep 1"], t.rows.map (fun r => r ++ ["—"])⟩

/-- The per-row update (lines 162-187): resolve the label from `tds[0]`, write
the annotated new value at `td` index `sep_idx - 1` when the indicator has a
`SEPT` value, then recompute the Overall cell at `td` index `overall_idx - 1`
from the `Feb 1` cell (index `feb_idx - 1`) and the just-written cell (index
`sep_idx - 1`). -/
def patchRow (sepIdx febIdx : Nat) (augIdx? oIdx? : Option Nat)
    (cells : List String) : List String :=
  match cells with
  | [] => cells
  | c0 :: _ =>
    let key := map_key (normStr c0)
    let cells1 :=
      if sepIdx - 1 < cells.length then
        match key with
        | some k =>
          match List.lookup k SEPT with
          | some val =>
            let augVal :=
              match augIdx? with
              | some ai => if ai - 1 < cells.length then parse_num (cells.getD (ai - 1) "") else none
              | none => none
            cells.set (sepIdx - 1) (annotateValue val augVal (good_when_down c0))
          | none => cells
        | none => cells
      else cells
    match oIdx? with
    | some oi =>
      if oi - 1 < cells1.length then
        let febVal := if febIdx - 1 < cells1.length then parse_num (cells1.getD (febIdx - 1) "") else none
        let latest := if sepIdx - 1 < cells1.length then parse_num (cells1.getD (sepIdx - 1) "") else none
        cells1.set (oi - 1) (annotateDelta latest febVal (good_when_down c0))
      else cells1
    | none => cells1

/-- The full table-patch pass for one table (lines 136-187): skip tables whose
first header does not normalize to `"indicator"`, run the column-insertion
step, re-derive all header indices from the updated header list, and update
every data row. -/
def patchTable (t : Table) : Option Table :=
  match t.headers with
  | [] => some t
  | h0 :: _ =>
    if normStr h0 = "indicator" then
      match insertStep t with
      | none => none
      | some t1 =>
        let headers := t1.headers
        let sepIdx := headers.findIdx (fun h => h == "Sep 1")
        let febIdx := if headers.contains "Feb 1" then headers.findIdx (fun h => h == "Feb 1") else 1
        let augIdx? := if headers.contains "Aug 1" then some (headers.findIdx (fun h => h == "Aug 1")) else none
        let oIdx? := overallIdx headers
        some ⟨headers, t1.rows.map (fun r => patchRow sepIdx febIdx augIdx? oIdx? r)⟩
    else some t

/-! ## Chart-fragment values and `parse_js_array` (lines 77-89 and 218-230) -/

/-- Semantic element of a bracketed literal sequence: a string, a number, or
the `null` missing marker (Python `None`). -/
inductive JSVal where
  | str : String → JSVal
  | num : ℚ → JSVal
  | null : JSVal
deriving DecidableEq, Repr

/-- Exponent suffix accepted by Python `float` (empty, or `e`/`E`, optional
sign, digits); returns the scale factor. -/
def parseExp (s : List Char) : Option ℚ :=
  match s with
  | [] => some 1
  | c :: rest =>
    if c == 'e' || c == 'E' then
      let nr : Bool × List Char := match rest with
        | d :: r2 => if d == '-' then (true, r2) else if d == '+' then (false, r2) else (false, rest)
        | [] => (false, rest)
      let ds := nr.2.takeWhile (fun x => x.isDigit)
      if ds.isEmpty || !(nr.2.dropWhile (fun x => x.isDigit)).isEmpty then none
      else some (if nr.1 then mkRat 1 (10 ^ digitsToNat ds) else ((10 ^ digitsToNat ds : Nat) : ℚ))
    else none

/-- Model of Python `float(s)` on plain decimal/exponent literals (the forms
occurring in chart fragments); `inf`/`nan`/underscores are not modeled. -/
def pyFloat (s : List Char) : Option ℚ :=
  let t := stripWs s
  let p := signSplit t
  let ip := p.2.takeWhile (fun c => c.isDigit)
  let r2 := p.2.dropWhile (fun c => c.isDigit)
  let core : Option ℚ :=
    match r2 with
    | c :: r3 =>
      if c == '.' then
        let fp := r3.takeWhile (fun x => x.isDigit)
        let r4 := r3.dropWhile (fun x => x.isDigit)
        if ip.isEmpty && fp.isEmpty then none
        else (parseExp r4).map (fun e =>
          qmul (qadd (digitsToNat ip : ℚ) (mkRat (digitsToNat fp : ℤ) (10 ^ fp.length))) e)
      else if ip.isEmpty then none else (parseExp r2).map (fun e => qmul (digitsToNat ip : ℚ) e)
    | [] => if ip.isEmpty then none else some ((digitsToNat ip : ℚ))
  core.map (fun v => if p.1 then -v else v)

/-- The lookahead of the split pattern as the source actually spells it
(doubled backslashes inside a raw string): a run of characters other than
backslash and `[`, followed by a literal backslash and `]`. -/
def laEsc : List Char → Bool
  | [] => false
  | c :: rest =>
    if c == Char.ofNat 92 then
      match rest with
      | d :: _ => d == ']'
      | [] => false
    else if c == '[' then false
    else laEsc rest

/-- Worker of `splitTop`: split at every comma whose (negative) lookahead
fails, i.e. at every comma not followed by `laEsc` text. -/
def splitAux : List Char → List Char → List (List Char)
  | acc, [] => [acc.reverse]
  | acc, c :: rest =>
    if c == ',' && !laEsc rest then acc.reverse :: splitAux [] rest
    else splitAux (c :: acc) rest

/-- Model of `re.split(r',(?![^\\[\\]]*\\])', inner)`. -/
def splitTop (cs : List Char) : List (List Char) := splitAux [] cs

/-- Conversion of one comma-separated part (lines 83-88): `null`, a quoted
string (first and last character any quote), a float, or the raw text. -/
def elemOf (p : List Char) : JSVal :=
  let s := stripWs p
  if s.map asciiLower = "null".data then JSVal.null
  else if (match s.head? with
           | some c => c == Char.ofNat 39 || c == Char.ofNat 34
           | none => false) &&
          (match s.getLast? with
           | some c => c == Char.ofNat 39 || c == Char.ofNat 34
           | none => false) then
    JSVal.str (String.mk (dropFirstLast s))
  else
    match pyFloat s with
    | some q => JSVal.num q
    | none => JSVal.str (String.mk s)

/-- The source's `parse_js_array` (lines 77-89; the copy inside `patch_chart`,
lines 218-230, is textually identical): strip, drop the brackets, strip, and
split at commas with the (ineffective) lookahead. -/
def parse_js_array (s : String) : List JSVal :=
  let inner := stripWs (dropFirstLast (stripWs s.data))
  if inner.isEmpty then []
  else (splitTop inner).map elemOf

/-! ## Filename-to-indicator resolution (lines 99-113 and 242-255) -/

/-- The module-level `indicator_from_filename` (lines 99-113): drop `.html`,
lowercase, then the fixed first-match-wins rule chain. -/
def indicator_from_filename (fn : String) : Option String :=
  let base := (replAll ".html".data fn.data).map asciiLower
  if isPrefixL "30-year-mortgage-rate-".data base then some "30-Year Mortgage Rate (%)"
  else if base = "djia".data then some "DJIA"
  else if base = "nasdaq".data then some "NASDAQ"
  else if base = "s&p-500".data ∨ base = "s&p 500".data ∨ base = "s&p_500".data then some "S&P 500"
  else if containsL "unemployment".data base then some "Unemployment Rate (%)"
  else if containsL "consumer-confidence".data base then some "Consumer Confidence"
  else if containsL "presidential-approval".data base then some "Presidential Approval (%)"
  else if containsL "avg-home-price".data base ∨ containsL "average-home-price".data base then
    some "Avg Home Price ($)"
  else if containsL "avg-gas-price".data base then some "Avg Gas Price ($/gal)"
  else if containsL "big-mac".data base then some "Big Mac ($)"
  else if containsL "milk".data base then some "Milk ($/gal)"
  else if containsL "eggs".data base then some "Eggs ($/dozen)"
  else none

/-- The inline copy of the same rules inside `patch_chart` (lines 242-255),
translated independently from that site. -/
def chartIndicatorFromFilename (fn : String) : Option String :=
  let base := (replAll ".html".data fn.data).map asciiLower
  if isPrefixL "30-year-mortgage-rate-".data base then some "30-Year Mortgage Rate (%)"
  else if base = "djia".data then some "DJIA"
  else if base = "nasdaq".data then some "NASDAQ"
  else if base = "s&p-500".data ∨ base = "s&p 500".data ∨ base = "s&p_500".data then some "S&P 500"
  else if containsL "unemployment".data base then some "Unemployment Rate (%)"
  else if containsL "consumer-confidence".data base then some "Consumer Confidence"
  else if containsL "presidential-approval".data base then some "Presidential Approval (%)"
  else if containsL "avg-home-price".data base ∨ containsL "average-home-price".data base then
    some "Avg Home Price ($)"
  else if containsL "avg-gas-price".data base then some "Avg Gas Price ($/gal)"
  else if containsL "big-mac".data base then some "Big Mac ($)"
  else if containsL "milk".data base then some "Milk ($/gal)"
  else if containsL "eggs".data base then some "Eggs ($/dozen)"
  else none

/-! ## The chart-series patch on the parsed sequences (lines 238-259) -/

/-- The list-level core of `patch_chart` (lines 238-259), after both
declarations have been located and parsed: append `"Sep 1"` to the labels when
absent, resolve the indicator from the filename (inline rule copy), pad
`actual` with `null` while shorter than `len(labels) - 1`, then append the new
value or overwrite the last element.  Serialization does not change lengths,
so the patched lists carry the length facts of the serialized fragment. -/
def patch_chart_lists (fn : String) (labels actual : List JSVal) : List JSVal × List JSVal :=
  let labels2 := if labels.contains (JSVal.str "Sep 1") then labels else labels ++ [JSVal.str "Sep 1"]
  let val : JSVal :=
    match chartIndicatorFromFilename fn with
    | some k =>
      match List.lookup k SEPT with
      | some v => JSVal.num v
      | none => JSVal.null
    | none => JSVal.null
  let padded := actual ++ List.replicate (labels2.length - 1 - actual.length) JSVal.null
  if padded.length = labels2.length - 1 then (labels2, padded ++ [val])
  else (labels2, padded.dropLast ++ [val])

/-! ## Reference definitions written from the specification's wording -/

/-- Reference polarity classifier, written from the specification's four-rule
description (membership, market/sentiment substrings, cost/rate substrings,
default), for comparison with the source's `good_when_down`. -/
def goodWhenDownRef (name : String) : Bool :=
  let n := normL name
  if GOOD_WHEN_DOWN.contains (String.mk n) then true
  else if ["djia", "nasdaq", "s&p", "confidence", "approval", "income"].any
      (fun k => containsL k.data n) then false
  else if ["price", "rate", "mortgage", "ratio"].any (fun k => containsL k.data n) then true
  else false

/-- Reference resolver, written from the specification's wording: prefer the
canonical name with equal normalized form, else the alias image of the
normalized input, else nothing. -/
def resolveRef (raw : String) : Option String :=
  match (SEPT.map Prod.fst).find? (fun k => normStr k == normStr raw) with
  | some k => some k
  | none => List.lookup (normStr raw) ALIASES

/-! ## Small bridging facts for statements written with `/` and `^` -/

theorem mkRat_1e9 : (mkRat 1 1000000000 : ℚ) = 1 / 1000000000 := by
  rw [Rat.mkRat_eq_divInt, Rat.divInt_eq_div]
  norm_num

/-! ## Claim theorems -/

/-- Claim C1.  The claim says that on the table with header
`["Indicator", "Feb 1", "Sep 1"]` and row `["DJIA", "42000", "—"]` the patch
pass writes `"➖ 45621.29"` into the `"Sep 1"` cell and leaves `"Feb 1"` at
`"42000"`.  The code instead writes the value at `td` index `sep_idx - 1 = 1`,
which is the `"Feb 1"` cell (the label occupies `tds[0]`, so `"Sep 1"` is
`tds[2]`): the emoji and number of the claim are produced, but in the wrong
cell, and the `"Sep 1"` cell keeps the placeholder `"—"`. -/
theorem claim_c1_sep_write :
    patchTable ⟨["Indicator", "Feb 1", "Sep 1"], [["DJIA", "42000", "—"]]⟩ =
      some ⟨["Indicator", "Feb 1", "Sep 1"], [["DJIA", "➖ 45621.29", "—"]]⟩ := by decide

/-- Claim C3.  Byte-idempotence of the table pass fails: on the table with
header `["Indicator", "Sep 1", "Feb 1", "Overall"]` and row
`["Unemployment Rate (%)", "5.0", "9.9", "—"]`, the first pass writes the
annotated value at `td` index `sep_idx - 1 = 0`, clobbering the indicator
label; the second pass can then no longer resolve the indicator, so the
Overall cell is recomputed with polarity `false` instead of `true` and flips
from `"🟢 -0.7"` to `"🟥 -0.7"`. -/
theorem claim_c3_not_idempotent :
    patchTable ⟨["Indicator", "Sep 1", "Feb 1", "Overall"],
                [["Unemployment Rate (%)", "5.0", "9.9", "—"]]⟩ =
      some ⟨["Indicator", "Sep 1", "Feb 1", "Overall"],
            [["➖ 4.3", "5.0", "🟢 -0.7", "—"]]⟩ ∧
    patchTable ⟨["Indicator", "Sep 1", "Feb 1", "Overall"],
                [["➖ 4.3", "5.0", "🟢 -0.7", "—"]]⟩ =
      some ⟨["Indicator", "Sep 1", "Feb 1", "Overall"],
            [["➖ 4.3", "5.0", "🟥 -0.7", "—"]]⟩ ∧
    (⟨["Indicator", "Sep 1", "Feb 1", "Overall"],
      [["➖ 4.3", "5.0", "🟥 -0.7", "—"]]⟩ : Table) ≠
      ⟨["Indicator", "Sep 1", "Feb 1", "Overall"],
       [["➖ 4.3", "5.0", "🟢 -0.7", "—"]]⟩ := by decide

/-- Claim C5.  `parse_js_array` does not protect commas inside nested
brackets: on the claim's own example `"[[1,2], 3]"` it returns one element per
comma (three elements, the first two being the fragments `"[1"` and `"2]"`),
not one per top-level item (two).  The doubled backslashes inside the raw
split pattern make the lookahead unsatisfiable on backslash-free input, so the
split is a plain comma split. -/
theorem claim_c5_nested_split :
    parse_js_array "[[1,2], 3]" = [JSVal.str "[1", JSVal.str "2]", JSVal.num 3] ∧
    (parse_js_array "[[1,2], 3]").length ≠ 2 := by decide

/-- Claim C6: `good_when_down` equals the specification's four-rule
first-match-wins reference function on every name, and the three named
examples hold; `"Income Ratio"` (which matches both the sentiment substring
`"income"` and the cost substring `"ratio"`) shows rule 2 firing before
rule 3. -/
theorem claim_c6_polarity :
    (∀ name : String, good_when_down name = goodWhenDownRef name) ∧
    good_when_down "30-Year Mortgage Rate (%)" = true ∧
    good_when_down "DJIA" = false ∧
    good_when_down "Consumer Confidence" = false ∧
    good_when_down "Income Ratio" = false :=
  ⟨fun _ => rfl, by decide, by decide, by decide, by decide⟩

/-- Claim C7: resolution normalizes and prefers an exact canonical-name match
over an alias match (the reference resolver checks the canonical names first),
and both `"average home price ($)"` (via the alias table) and
`"Avg Home Price ($)"` (via its normalized canonical form) resolve to the
canonical key `"Avg Home Price ($)"`. -/
theorem claim_c7_resolver :
    (∀ raw : String, resolve raw = resolveRef raw) ∧
    resolve "average home price ($)" = some "Avg Home Price ($)" ∧
    resolve "Avg Home Price ($)" = some "Avg Home Price ($)" :=
  ⟨fun _ => rfl, by decide, by decide⟩

/-- Claim C9: the module-level `indicator_from_filename` and the inline rule
chain of `patch_chart` compute the same partial function on every filename. -/
theorem claim_c9_filename_resolvers_agree :
    ∀ fn : String, indicator_from_filename fn = chartIndicatorFromFilename fn :=
  fun _ => rfl

/-- Claim C2, counterexample.  The claim says that whenever the prior value is
present and `abs(new - prior) < 1e-9` the emoji is the neutral marker
regardless of polarity.  For `new = 6 + 2⁻³¹` (exactly representable as a
float), `prior = 6`, `goodWhenDown = false`, the delta is positive and smaller
than `1e-9`, yet the code produces the good marker: the tolerance branch is
only reached when the favorable-direction test already failed. -/
theorem claim_c2_counterexample :
    |((6 + 1 / 2 ^ 31 : ℚ)) - 6| < 1 / 1000000000 ∧
    annotateValue (6 + 1 / 2 ^ 31) (some 6) false = "🟢 6" := by
  have he : (6 + 1 / 2 ^ 31 : ℚ) = qadd 6 (mkRat 1 2147483648) := by
    rw [qadd_eq, Rat.mkRat_eq_divInt, Rat.divInt_eq_div]
    norm_num
  constructor
  · rw [show ((6 + 1 / 2 ^ 31 : ℚ)) - 6 = 1 / 2 ^ 31 by ring]
    rw [abs_of_pos (by norm_num)]
    norm_num
  · rw [he]
    decide

/-- Claim C4, counterexample.  The claim's length invariant
`len(labels) = len(actual)` fails when `actual` is longer than the patched
`labels`: the code then only overwrites the last element of `actual`, keeping
its surplus length (here labels end up with 2 elements, actual with 3). -/
theorem claim_c4_counterexample :
    patch_chart_lists "djia.html" [JSVal.str "Aug 1"] [JSVal.num 1, JSVal.num 2, JSVal.num 3] =
      ([JSVal.str "Aug 1", JSVal.str "Sep 1"],
       [JSVal.num 1, JSVal.num 2, JSVal.num (mkRat 4562129 100)]) ∧
    ((patch_chart_lists "djia.html" [JSVal.str "Aug 1"]
        [JSVal.num 1, JSVal.num 2, JSVal.num 3]).2).length ≠
      ((patch_chart_lists "djia.html" [JSVal.str "Aug 1"]
        [JSVal.num 1, JSVal.num 2, JSVal.num 3]).1).length := by decide

/-- Characterization of the source's emoji expression: good exactly when the
delta moves in the favorable direction; otherwise neutral when
`abs(delta) < 1e-9`, otherwise bad.  In particular the tolerance overrides
only the bad marker, never the good one. -/
theorem trendEmoji_eq (d : ℚ) (gwd : Bool) :
    trendEmoji d gwd =
      (if (if gwd then d < 0 else 0 < d) then "🟢"
       else if |d| < 1 / 1000000000 then "➖" else "🟥") := by
  rw [trendEmoji, pyAbs_eq, mkRat_1e9]
  by_cases hf : (if gwd then d < 0 else 0 < d)
  · have hb : (if gwd then decide (d < 0) else decide (0 < d)) = true := by
      cases gwd <;> simpa using hf
    rw [if_pos hb, if_pos hf]
  · have hb : (if gwd then decide (d < 0) else decide (0 < d)) = false := by
      cases gwd <;> simpa using hf
    rw [if_neg (ne_true_of_eq_false hb), if_neg hf]

/-- Claim C2, amended.  With the prior value present, the cell text is
`"<emoji> <fmt val>"` where the emoji is the good marker exactly when the
delta moves in the favorable direction (`delta < 0` iff `goodWhenDown`, with a
zero delta never favorable); otherwise it is neutral when
`abs(delta) < 1e-9` and bad otherwise — so a nonzero delta below the tolerance
in the favorable direction still yields the good marker, and the claim's
example `prior = 6.0`, `new = 6.5`, `goodWhenDown = true` gives `"🟥 6.5"`. -/
theorem claim_c2_amended (val aug : ℚ) (gwd : Bool) :
    annotateValue val (some aug) gwd =
      (if (if gwd then val - aug < 0 else 0 < val - aug) then "🟢"
       else if |val - aug| < 1 / 1000000000 then "➖" else "🟥") ++ " " ++ fmt val ∧
    annotateValue (13 / 2 : ℚ) (some 6) true = "🟥 6.5" := by
  constructor
  · show trendEmoji (qsub val aug) gwd ++ " " ++ fmt val = _
    rw [qsub_eq, trendEmoji_eq]
  · have he : (13 / 2 : ℚ) = mkRat 13 2 := by
      rw [Rat.mkRat_eq_divInt, Rat.divInt_eq_div]
      norm_num
    rw [he]
    decide

/-- Claim C4, amended.  The length invariant `len(actual) = len(labels)` holds
after the patch provided `actual` is, before the patch, no longer than the
labels sequence with `"Sep 1"` ensured (the only case the counterexample
excludes): `actual` is padded with `null` up to `len(labels) - 1` and the new
value appended, or its last element is overwritten when the lengths already
agree. -/
theorem claim_c4_amended (fn : String) (labels actual : List JSVal)
    (h : actual.length ≤
      (if labels.contains (JSVal.str "Sep 1") then labels.length else labels.length + 1)) :
    ((patch_chart_lists fn labels actual).2).length =
      ((patch_chart_lists fn labels actual).1).length := by
  simp only [patch_chart_lists]
  by_cases hc : labels.contains (JSVal.str "Sep 1")
  · have hlen : 1 ≤ labels.length := by
      cases labels with
      | nil => simp [List.contains] at hc
      | cons a l => simp
    rw [if_pos hc] at h
    simp only [hc, if_true]
    split
    next hp =>
      simp only [List.length_append, List.length_replicate, List.length_cons,
        List.length_nil] at hp ⊢
      omega
    next hp =>
      simp only [List.length_append, List.length_replicate, List.length_cons,
        List.length_nil, List.length_dropLast] at hp ⊢
      omega
  · rw [if_neg hc] at h
    simp only [hc, if_false, Bool.false_eq_true]
    split
    next hp =>
      simp only [List.length_append, List.length_replicate, List.length_cons,
        List.length_nil] at hp ⊢
      omega
    next hp =>
      simp only [List.length_append, List.length_replicate, List.length_cons,
        List.length_nil, List.length_dropLast] at hp ⊢
      omega

/-- Witness for `claim_c4_amended` at the fragment
`labels = ["Aug 1"]`, `actual = [null]`, filename `"x.html"`. -/
theorem claim_c4_amended_witness :
    ([JSVal.null] : List JSVal).length ≤
      (if ([JSVal.str "Aug 1"] : List JSVal).contains (JSVal.str "Sep 1")
       then ([JSVal.str "Aug 1"] : List JSVal).length
       else ([JSVal.str "Aug 1"] : List JSVal).length + 1) ∧
    ((patch_chart_lists "x.html" [JSVal.str "Aug 1"] [JSVal.null]).2).length =
      ((patch_chart_lists "x.html" [JSVal.str "Aug 1"] [JSVal.null]).1).length :=
  ⟨by decide, claim_c4_amended "x.html" [JSVal.str "Aug 1"] [JSVal.null] (by decide)⟩

/-- Claim C10: when the filename matches none of the rules, the chart patch
still proceeds — `"Sep 1"` is appended to the labels when absent, `actual` is
padded and its final element is the `null` missing marker (appended, or
overwriting the previous last element). -/
theorem claim_c10_no_indicator (fn : String) (labels actual : List JSVal)
    (h : chartIndicatorFromFilename fn = none) :
    (patch_chart_lists fn labels actual).1 =
      (if labels.contains (JSVal.str "Sep 1") then labels else labels ++ [JSVal.str "Sep 1"]) ∧
    (patch_chart_lists fn labels actual).2 =
      (let labels2 := if labels.contains (JSVal.str "Sep 1") then labels
                      else labels ++ [JSVal.str "Sep 1"]
       let padded := actual ++ List.replicate (labels2.length - 1 - actual.length) JSVal.null
       if padded.length = labels2.length - 1 then padded ++ [JSVal.null]
       else padded.dropLast ++ [JSVal.null]) ∧
    (patch_chart_lists fn labels actual).2.getLast? = some JSVal.null := by
  simp only [patch_chart_lists, h]
  refine ⟨?_, ?_, ?_⟩
  · split <;> split <;> rfl
  · split <;> split <;> rfl
  · split <;> split <;> exact List.getLast?_concat _

/-- Witness for `claim_c10_no_indicator` at the fragment
`labels = ["Aug 1"]`, `actual = [1.0]`, filename `"mystery.html"` (which
matches no rule). -/
theorem claim_c10_witness :
    chartIndicatorFromFilename "mystery.html" = none ∧
    (patch_chart_lists "mystery.html" [JSVal.str "Aug 1"] [JSVal.num 1]).2.getLast? =
      some JSVal.null :=
  ⟨by decide,
   (claim_c10_no_indicator "mystery.html" [JSVal.str "Aug 1"] [JSVal.num 1] (by decide)).2.2⟩

/-! ## Lemmas for the numeric codec round trip (claim C8) -/

theorem digitVal_digitChar (k : Nat) (h : k < 10) : digitVal (digitChar k) = k := by
  interval_cases k <;> rfl

theorem isDigit_digitChar (k : Nat) (h : k < 10) : (digitChar k).isDigit = true := by
  interval_cases k <;> rfl

theorem digitChar_ne_zero (k : Nat) (h : k < 10) (h0 : k ≠ 0) : digitChar k ≠ '0' := by
  interval_cases k <;> first | exact absurd rfl h0 | decide

theorem digitsToNat_append (l : List Char) (c : Char) :
    digitsToNat (l ++ [c]) = 10 * digitsToNat l + digitVal c := by
  rw [digitsToNat, digitsToNat, List.foldl_append]
  rfl

theorem natDigitsF_spec :
    ∀ fuel n, n < fuel →
      digitsToNat (natDigitsF fuel n) = n ∧ natDigitsF fuel n ≠ [] ∧
        ∀ c ∈ natDigitsF fuel n, c.isDigit = true := by
  intro fuel
  induction fuel with
  | zero => intro n h; omega
  | succ f ih =>
    intro n h
    rw [natDigitsF]
    by_cases h10 : n < 10
    · rw [if_pos h10]
      refine ⟨?_, by simp, ?_⟩
      · have h1 : digitsToNat [digitChar n] = digitVal (digitChar n) := by
          simp [digitsToNat]
        rw [h1, digitVal_digitChar n h10]
      · intro c hc
        have : c = digitChar n := by simpa using hc
        rw [this]
        exact isDigit_digitChar n h10
    · rw [if_neg h10]
      have hn : n / 10 < f := by
        have := Nat.div_lt_self (show 0 < n by omega) (show 1 < 10 by omega)
        omega
      obtain ⟨ih1, _, ih3⟩ := ih (n / 10) hn
      refine ⟨?_, by simp, ?_⟩
      · rw [digitsToNat_append, ih1, digitVal_digitChar _ (Nat.mod_lt _ (by omega))]
        omega
      · intro c hc
        rw [List.mem_append] at hc
        rcases hc with hc | hc
        · exact ih3 c hc
        · have : c = digitChar (n % 10) := by simpa using hc
          rw [this]
          exact isDigit_digitChar _ (Nat.mod_lt _ (by omega))

theorem natDigits_val (n : Nat) : digitsToNat (natDigits n) = n :=
  (natDigitsF_spec (n + 1) n (by omega)).1

theorem natDigits_ne_nil (n : Nat) : natDigits n ≠ [] :=
  (natDigitsF_spec (n + 1) n (by omega)).2.1

theorem natDigits_digits (n : Nat) : ∀ c ∈ natDigits n, c.isDigit = true :=
  (natDigitsF_spec (n + 1) n (by omega)).2.2

theorem takeWhile_all {α : Type} {p : α → Bool} :
    ∀ l : List α, (∀ c ∈ l, p c = true) → l.takeWhile p = l := by
  intro l
  induction l with
  | nil => intro _; rfl
  | cons a t ih =>
    intro h
    rw [List.takeWhile_cons, h a (by simp), ih (fun c hc => h c (by simp [hc]))]
    exact if_pos rfl

theorem dropWhile_all {α : Type} {p : α → Bool} :
    ∀ l : List α, (∀ c ∈ l, p c = true) → l.dropWhile p = [] := by
  intro l
  induction l with
  | nil => intro _; rfl
  | cons a t ih =>
    intro h
    rw [List.dropWhile_cons, h a (by simp)]
    exact ih (fun c hc => h c (by simp [hc]))

theorem takeWhile_append_stop {α : Type} {p : α → Bool} :
    ∀ l1 : List α, (∀ c ∈ l1, p c = true) → ∀ x l2, p x = false →
      (l1 ++ x :: l2).takeWhile p = l1 := by
  intro l1
  induction l1 with
  | nil =>
    intro _ x l2 hx
    rw [List.nil_append, List.takeWhile_cons, hx]
    exact if_neg Bool.false_ne_true
  | cons a t ih =>
    intro h x l2 hx
    rw [List.cons_append, List.takeWhile_cons, h a (by simp),
      ih (fun c hc => h c (by simp [hc])) x l2 hx]
    exact if_pos rfl

theorem dropWhile_append_stop {α : Type} {p : α → Bool} :
    ∀ l1 : List α, (∀ c ∈ l1, p c = true) → ∀ x l2, p x = false →
      (l1 ++ x :: l2).dropWhile p = x :: l2 := by
  intro l1
  induction l1 with
  | nil =>
    intro _ x l2 hx
    rw [List.nil_append, List.dropWhile_cons, hx]
    exact if_neg Bool.false_ne_true
  | cons a t ih =>
    intro h x l2 hx
    rw [List.cons_append, List.dropWhile_cons, h a (by simp)]
    exact ih (fun c hc => h c (by simp [hc])) x l2 hx

theorem dropWhile_id_of {α : Type} {p : α → Bool} :
    ∀ l : List α, (∀ c ∈ l, p c = false) → l.dropWhile p = l := by
  intro l h
  cases l with
  | nil => rfl
  | cons a t =>
    rw [List.dropWhile_cons, h a (by simp)]
    exact if_neg Bool.false_ne_true

theorem filter_id_of {α : Type} {p : α → Bool} :
    ∀ l : List α, (∀ c ∈ l, p c = true) → l.filter p = l := by
  intro l
  induction l with
  | nil => intro _; rfl
  | cons a t ih =>
    intro h
    rw [List.filter_cons, if_pos (h a (by simp)), ih (fun c hc => h c (by simp [hc]))]

theorem any_false_of {α : Type} {p : α → Bool} :
    ∀ l : List α, (∀ c ∈ l, p c = false) → l.any p = false := by
  intro l
  induction l with
  | nil => intro _; rfl
  | cons a t ih =>
    intro h
    rw [List.any_cons, h a (by simp), ih (fun c hc => h c (by simp [hc]))]
    rfl

theorem stripWs_id (l : List Char) (h : ∀ c ∈ l, isWsC c = false) : stripWs l = l := by
  rw [stripWs, dropWhile_id_of l h,
    dropWhile_id_of l.reverse (fun c hc => h c (List.mem_reverse.mp hc)), List.reverse_reverse]

theorem rstripCh_snoc_eq (c : Char) (l : List Char) : rstripCh c (l ++ [c]) = rstripCh c l := by
  rw [rstripCh, rstripCh, List.reverse_append]
  simp [List.dropWhile_cons]

theorem rstripCh_snoc_ne (c x : Char) (l : List Char) (h : x ≠ c) :
    rstripCh c (l ++ [x]) = l ++ [x] := by
  rw [rstripCh, List.reverse_append]
  have hx : (x == c) = false := by simp [h]
  simp [List.dropWhile_cons, hx]

/-- Characters that can occur in a `fmt` output: sign, dot, digits. -/
def goodChar (c : Char) : Prop := c = '-' ∨ c = '.' ∨ c.isDigit = true

theorem isDigit_ne {c : Char} (h : c.isDigit = true) (x : Char) (hx : x.isDigit = false) :
    c ≠ x := by
  intro he
  rw [he, hx] at h
  exact Bool.false_ne_true h

theorem goodChar_not_emdash {c : Char} (h : goodChar c) : (c == '—') = false := by
  rcases h with h | h | h
  · rw [h]; decide
  · rw [h]; decide
  · exact beq_eq_false_iff_ne.mpr (isDigit_ne h _ (by decide))

theorem goodChar_not_banned {c : Char} (h : goodChar c) : (!bannedCh c) = true := by
  rcases h with h | h | h
  · rw [h]; decide
  · rw [h]; decide
  · have h1 : (c == '🟥') = false := beq_eq_false_iff_ne.mpr (isDigit_ne h _ (by decide))
    have h2 : (c == '🟢') = false := beq_eq_false_iff_ne.mpr (isDigit_ne h _ (by decide))
    have h3 : (c == '➖') = false := beq_eq_false_iff_ne.mpr (isDigit_ne h _ (by decide))
    have h4 : (c == '$') = false := beq_eq_false_iff_ne.mpr (isDigit_ne h _ (by decide))
    have h5 : (c == '%') = false := beq_eq_false_iff_ne.mpr (isDigit_ne h _ (by decide))
    have h6 : (c == ',') = false := beq_eq_false_iff_ne.mpr (isDigit_ne h _ (by decide))
    simp [bannedCh, h1, h2, h3, h4, h5, h6]

theorem goodChar_not_ws {c : Char} (h : goodChar c) : isWsC c = false := by
  rcases h with h | h | h
  · rw [h]; decide
  · rw [h]; decide
  · have h1 : (c == ' ') = false := beq_eq_false_iff_ne.mpr (isDigit_ne h _ (by decide))
    have h2 : (c == '\t') = false := beq_eq_false_iff_ne.mpr (isDigit_ne h _ (by decide))
    have h3 : (c == '\n') = false := beq_eq_false_iff_ne.mpr (isDigit_ne h _ (by decide))
    have h4 : (c == '\r') = false := beq_eq_false_iff_ne.mpr (isDigit_ne h _ (by decide))
    have h5 : (c == Char.ofNat 11) = false := beq_eq_false_iff_ne.mpr (isDigit_ne h _ (by decide))
    have h6 : (c == Char.ofNat 12) = false := beq_eq_false_iff_ne.mpr (isDigit_ne h _ (by decide))
    simp [isWsC, h1, h2, h3, h4, h5, h6]

theorem parse_num_good (S : List Char) (hS : ∀ c ∈ S, goodChar c) :
    parse_num (String.mk S) = findNum S := by
  rw [parse_num]
  have hdata : (String.mk S).data = S := rfl
  rw [hdata, any_false_of S (fun c hc => goodChar_not_emdash (hS c hc))]
  rw [if_neg Bool.false_ne_true]
  rw [filter_id_of S (fun c hc => goodChar_not_banned (hS c hc)),
    stripWs_id S (fun c hc => goodChar_not_ws (hS c hc))]

theorem matchCore_int (ds : List Char) (h1 : ds ≠ []) (h2 : ∀ c ∈ ds, c.isDigit = true) :
    matchCore ds = some ((digitsToNat ds : ℚ)) := by
  have he : ds.isEmpty = false := by cases ds with
    | nil => exact absurd rfl h1
    | cons a t => rfl
  rw [matchCore, takeWhile_all ds h2, dropWhile_all ds h2]
  simp only [matchTail, he]
  rw [if_neg Bool.false_ne_true]

theorem matchCore_frac (ds fs : List Char) (h2 : ∀ c ∈ ds, c.isDigit = true)
    (hf1 : fs ≠ []) (hf2 : ∀ c ∈ fs, c.isDigit = true) :
    matchCore (ds ++ '.' :: fs) =
      some (qadd (digitsToNat ds : ℚ) (mkRat (digitsToNat fs : ℤ) (10 ^ fs.length))) := by
  have he : fs.isEmpty = false := by cases fs with
    | nil => exact absurd rfl hf1
    | cons a t => rfl
  rw [matchCore, takeWhile_append_stop ds h2 '.' fs (by decide),
    dropWhile_append_stop ds h2 '.' fs (by decide)]
  simp only [matchTail]
  have hdot : ('.' == '.') = true := rfl
  rw [if_pos hdot, takeWhile_all fs hf2]
  simp only [he]
  rw [if_neg Bool.false_ne_true]

theorem signSplit_digit (d : Char) (rest : List Char) (hd : d.isDigit = true) :
    signSplit (d :: rest) = (false, d :: rest) := by
  have h1 : (d == '-') = false := beq_eq_false_iff_ne.mpr (isDigit_ne hd _ (by decide))
  have h2 : (d == '+') = false := beq_eq_false_iff_ne.mpr (isDigit_ne hd _ (by decide))
  rw [signSplit, if_neg (ne_true_of_eq_false h1), if_neg (ne_true_of_eq_false h2)]

theorem matchAt_digit (d : Char) (rest : List Char) (hd : d.isDigit = true) (v : ℚ)
    (hcore : matchCore (d :: rest) = some v) : matchAt (d :: rest) = some v := by
  rw [matchAt, signSplit_digit d rest hd]
  rw [hcore]
  rfl

theorem matchAt_neg (r : List Char) (v : ℚ) (hcore : matchCore r = some v) :
    matchAt ('-' :: r) = some (-v) := by
  have hs : signSplit ('-' :: r) = (true, r) := by
    have hdash : (('-' : Char) == '-') = true := rfl
    rw [signSplit, if_pos hdash]
  rw [matchAt, hs]
  rw [hcore]
  rfl

theorem findNum_head (c : Char) (rest : List Char) (v : ℚ)
    (h : matchAt (c :: rest) = some v) : findNum (c :: rest) = some v := by
  rw [findNum, h]

theorem mkRat_eq_div (z : ℤ) (d : Nat) : (mkRat z d : ℚ) = (z : ℚ) / (d : ℚ) := by
  rw [Rat.mkRat_eq_divInt, Rat.divInt_eq_div]
  norm_num

theorem render2f_div100 (n : ℤ) :
    render2f ((n : ℚ) / 100) =
      (if n < 0 then ['-'] else []) ++ natDigits (n.natAbs / 100) ++
        '.' :: [digitChar (n.natAbs % 100 / 10), digitChar (n.natAbs % 100 % 10)] := by
  have h100 : qmul 100 ((n : ℚ) / 100) = (n : ℚ) := by
    rw [qmul_eq, mul_comm, div_mul_cancel₀ _ (by norm_num : (100 : ℚ) ≠ 0)]
  have hsign : (((n : ℚ) / 100) < 0) = (n < 0) := by
    apply propext
    rw [div_lt_iff₀ (by norm_num : (0 : ℚ) < 100)]
    norm_num
  simp only [render2f, twoFrac, h100, rhe_intCast, hsign]

/-- Fractional tail left by the two `rstrip`s of `fmt`, as a function of the
two-digit fractional value. -/
def fracTail (b : Nat) : List Char :=
  if b = 0 then []
  else if b % 10 = 0 then ['.', digitChar (b / 10)]
  else ['.', digitChar (b / 10), digitChar (b % 10)]

theorem strip_render (pre : List Char) (a b : Nat) (hb : b < 100) :
    rstripCh '.' (rstripCh '0'
      (pre ++ natDigits a ++ '.' :: [digitChar (b / 10), digitChar (b % 10)])) =
      pre ++ natDigits a ++ fracTail b := by
  have hnn := natDigits_ne_nil a
  have hx : pre ++ natDigits a ++ '.' :: [digitChar (b / 10), digitChar (b % 10)] =
      (((pre ++ natDigits a) ++ ['.']) ++ [digitChar (b / 10)]) ++ [digitChar (b % 10)] := by
    simp
  rw [hx]
  by_cases hb0 : b = 0
  · subst hb0
    have h1 : digitChar (0 / 10) = '0' := rfl
    have h2 : digitChar (0 % 10) = '0' := rfl
    simp only [h1, h2]
    rw [rstripCh_snoc_eq, rstripCh_snoc_eq,
      rstripCh_snoc_ne '0' '.' _ (by decide), rstripCh_snoc_eq]
    have hft : fracTail 0 = [] := rfl
    rw [hft, List.append_nil]
    have hdec := List.dropLast_append_getLast hnn
    have hdig : ((natDigits a).getLast hnn).isDigit = true :=
      natDigits_digits a _ (List.getLast_mem hnn)
    have hne : (natDigits a).getLast hnn ≠ '.' := isDigit_ne hdig '.' (by decide)
    rw [← hdec, ← List.append_assoc, rstripCh_snoc_ne '.' _ _ hne]
  · by_cases hb10 : b % 10 = 0
    · have h2 : digitChar (b % 10) = '0' := by
        rw [hb10]
        rfl
      have hone : digitChar (b / 10) ≠ '0' := digitChar_ne_zero _ (by omega) (by omega)
      have hdot : digitChar (b / 10) ≠ '.' :=
        isDigit_ne (isDigit_digitChar _ (by omega)) '.' (by decide)
      rw [h2, rstripCh_snoc_eq, rstripCh_snoc_ne '0' _ _ hone,
        rstripCh_snoc_ne '.' _ _ hdot]
      have hft : fracTail b = ['.', digitChar (b / 10)] := by
        rw [fracTail, if_neg hb0, if_pos hb10]
      rw [hft]
      simp
    · have h2 : digitChar (b % 10) ≠ '0' := digitChar_ne_zero _ (by omega) hb10
      have hdot : digitChar (b % 10) ≠ '.' :=
        isDigit_ne (isDigit_digitChar _ (by omega)) '.' (by decide)
      rw [rstripCh_snoc_ne '0' _ _ h2, rstripCh_snoc_ne '.' _ _ hdot]
      have hft : fracTail b = ['.', digitChar (b / 10), digitChar (b % 10)] := by
        rw [fracTail, if_neg hb0, if_neg hb10]
      rw [hft]
      simp

theorem matchCore_stripped (a b : Nat) (hb : b < 100) :
    matchCore (natDigits a ++ fracTail b) = some (((100 * a + b : Nat) : ℚ) / 100) := by
  by_cases hb0 : b = 0
  · subst hb0
    have hft : fracTail 0 = [] := rfl
    rw [hft, List.append_nil,
      matchCore_int _ (natDigits_ne_nil a) (natDigits_digits a), natDigits_val]
    congr 1
    push_cast
    field_simp
  · by_cases hb10 : b % 10 = 0
    · have hft : fracTail b = '.' :: [digitChar (b / 10)] := by
        rw [fracTail, if_neg hb0, if_pos hb10]
      rw [hft, matchCore_frac _ _ (natDigits_digits a) (by simp)
        (by
          intro c hc
          have hc' : c = digitChar (b / 10) := by simpa using hc
          rw [hc']
          exact isDigit_digitChar _ (by omega))]
      have hone : digitsToNat [digitChar (b / 10)] = b / 10 := by
        have e : digitsToNat [digitChar (b / 10)] = 10 * 0 + digitVal (digitChar (b / 10)) := rfl
        rw [e, digitVal_digitChar _ (by omega)]
        omega
      rw [natDigits_val, hone, qadd_eq, mkRat_eq_div]
      congr 1
      rw [show ([digitChar (b / 10)] : List Char).length = 1 from rfl]
      obtain ⟨k, hk⟩ : ∃ k, b = 10 * k := ⟨b / 10, by omega⟩
      subst hk
      rw [show 10 * k / 10 = k by omega]
      push_cast
      field_simp
      ring
    · have hft : fracTail b = '.' :: [digitChar (b / 10), digitChar (b % 10)] := by
        rw [fracTail, if_neg hb0, if_neg hb10]
      rw [hft, matchCore_frac _ _ (natDigits_digits a) (by simp)
        (by
          intro c hc
          have hc' : c = digitChar (b / 10) ∨ c = digitChar (b % 10) := by simpa using hc
          rcases hc' with hc' | hc' <;> rw [hc']
          · exact isDigit_digitChar _ (by omega)
          · exact isDigit_digitChar _ (by omega))]
      have htwo : digitsToNat [digitChar (b / 10), digitChar (b % 10)] = b := by
        have e : digitsToNat [digitChar (b / 10), digitChar (b % 10)] =
            10 * (10 * 0 + digitVal (digitChar (b / 10))) + digitVal (digitChar (b % 10)) := rfl
        rw [e, digitVal_digitChar _ (by omega), digitVal_digitChar _ (by omega)]
        omega
      rw [natDigits_val, htwo, qadd_eq, mkRat_eq_div]
      congr 1
      rw [show ([digitChar (b / 10), digitChar (b % 10)] : List Char).length = 2 from rfl]
      push_cast
      field_simp
      ring

theorem goodChar_stripped (a b : Nat) (hb : b < 100) :
    ∀ c ∈ natDigits a ++ fracTail b, goodChar c := by
  intro c hc
  rw [List.mem_append] at hc
  rcases hc with hc | hc
  · exact Or.inr (Or.inr (natDigits_digits a c hc))
  · rw [fracTail] at hc
    split_ifs at hc with h1 h2
    · simp at hc
    · have hc' : c = '.' ∨ c = digitChar (b / 10) := by simpa using hc
      rcases hc' with hc' | hc'
      · exact Or.inr (Or.inl hc')
      · exact Or.inr (Or.inr (by rw [hc']; exact isDigit_digitChar _ (by omega)))
    · have hc' : c = '.' ∨ c = digitChar (b / 10) ∨ c = digitChar (b % 10) := by simpa using hc
      rcases hc' with hc' | hc' | hc'
      · exact Or.inr (Or.inl hc')
      · exact Or.inr (Or.inr (by rw [hc']; exact isDigit_digitChar _ (by omega)))
      · exact Or.inr (Or.inr (by rw [hc']; exact isDigit_digitChar _ (by omega)))

theorem head_digit_stripped (a b : Nat) :
    ∃ d rest, natDigits a ++ fracTail b = d :: rest ∧ d.isDigit = true := by
  cases hnd : natDigits a with
  | nil => exact absurd hnd (natDigits_ne_nil a)
  | cons d rest =>
    refine ⟨d, rest ++ fracTail b, by rw [List.cons_append], ?_⟩
    exact natDigits_digits a d (by rw [hnd]; exact List.mem_cons_self d rest)

/-- Claim C8: the numeric codec round trip.  For every value with at most two
fractional decimal digits (`v = n/100`, `n` any integer — positive, zero or
negative), `parse_num (fmt v) = some v`, exactly (hence within any floating
tolerance). -/
theorem claim_c8_roundtrip (n : ℤ) :
    parse_num (fmt ((n : ℚ) / 100)) = some ((n : ℚ) / 100) := by
  have hb : n.natAbs % 100 < 100 := Nat.mod_lt _ (by omega)
  have hfmt : fmt ((n : ℚ) / 100) =
      String.mk ((if n < 0 then ['-'] else []) ++
        (natDigits (n.natAbs / 100) ++ fracTail (n.natAbs % 100))) := by
    rw [fmt, render2f_div100, strip_render _ _ _ hb, List.append_assoc]
  rw [hfmt]
  have hm : (((100 * (n.natAbs / 100) + n.natAbs % 100 : Nat)) : ℚ) = ((n.natAbs : ℚ)) := by
    norm_cast
    omega
  rcases lt_or_le n 0 with hneg | hpos
  · rw [if_pos hneg]
    have hcons : (['-'] : List Char) ++
        (natDigits (n.natAbs / 100) ++ fracTail (n.natAbs % 100)) =
        '-' :: (natDigits (n.natAbs / 100) ++ fracTail (n.natAbs % 100)) := rfl
    rw [hcons]
    have hgood : ∀ c ∈ ('-' ::
        (natDigits (n.natAbs / 100) ++ fracTail (n.natAbs % 100))), goodChar c := by
      intro c hc
      rcases List.mem_cons.mp hc with h | h
      · exact Or.inl h
      · exact goodChar_stripped _ _ hb c h
    rw [parse_num_good _ hgood,
      findNum_head _ _ _ (matchAt_neg _ _ (matchCore_stripped _ _ hb))]
    congr 1
    have hcast : ((n.natAbs : ℚ)) = -(n : ℚ) := by
      rw [Int.cast_natAbs, abs_of_neg hneg]
      push_cast
      ring
    rw [hm, hcast]
    ring
  · rw [if_neg (not_lt.mpr hpos)]
    have hnil : ([] : List Char) ++
        (natDigits (n.natAbs / 100) ++ fracTail (n.natAbs % 100)) =
        natDigits (n.natAbs / 100) ++ fracTail (n.natAbs % 100) := rfl
    rw [hnil, parse_num_good _ (goodChar_stripped _ _ hb)]
    obtain ⟨d, rest, hdr, hd⟩ := head_digit_stripped (n.natAbs / 100) (n.natAbs % 100)
    rw [hdr, findNum_head d rest _ (matchAt_digit d rest hd _
      (by rw [← hdr]; exact matchCore_stripped _ _ hb))]
    congr 1
    have hcast : ((n.natAbs : ℚ)) = (n : ℚ) := by
      rw [Int.cast_natAbs, abs_of_nonneg hpos]
    rw [hm, hcast]
